import Mathlib

/-!
Shallow embedding of the `melody_creator` package: articulation constants
(`articulations.py`), `Note`/`MachineNote` (`note.py`), `Tempo` (`tempo.py`)
and the `Melody` construction pipeline (`melody.py`).

Python's `Fraction` is embedded as `ℚ`; Python's built-in `round` on exact
rationals (round to nearest, ties to even) is embedded as `pyRound`.
Operations that raise exceptions in Python are embedded as `Option`-valued
functions.
-/

namespace MelodyCreator

/-- Python's built-in `round` on an exact rational: round to the nearest
integer, with ties resolved to the even neighbour (banker's rounding), as
`Fraction.__round__` does. -/
def pyRound (q : ℚ) : ℤ :=
  if q - ⌊q⌋ < 1/2 then ⌊q⌋
  else if 1/2 < q - ⌊q⌋ then ⌊q⌋ + 1
  else if ⌊q⌋ % 2 = 0 then ⌊q⌋ else ⌊q⌋ + 1

/-! Articulation ratio constants from `articulations.py`. -/

def STACCATISSIMO : ℚ := 1/7
def STACCATO : ℚ := 2/7
def MEZZO_STACCATO : ℚ := 3/7
def PORTATO : ℚ := 4/7
def NON_LEGATO : ℚ := 5/7
def TENUTO : ℚ := 6/7
def LEGATO : ℚ := 1

/-- A music21 pitch, kept opaque except for the one field the code reads:
`freq440`, its frequency in Hertz (embedded as an exact rational). -/
structure Pitch where
  freq440 : ℚ
deriving DecidableEq

/-- `Note` from `note.py`: pitch, offset and duration in whole-lengths, and
an articulation ratio. The Python initializer stores the four values with no
validation, so the structure constructor is the faithful embedding of
`Note.__init__`. -/
structure Note where
  pitch : Pitch
  offset : ℚ
  duration : ℚ
  articulation : ℚ
deriving DecidableEq

instance : Inhabited Note := ⟨⟨⟨0⟩, 0, 0, NON_LEGATO⟩⟩

/-- `Note.__init__`: stores the given values; performs no checks and never
raises. The default articulation in the Python signature is `NON_LEGATO`. -/
def noteInit (pitch : Pitch) (offset duration : ℚ) (articulation : ℚ := NON_LEGATO) : Note :=
  ⟨pitch, offset, duration, articulation⟩

/-- `Note.end_offset`: offset of the end of the note. -/
def Note.end_offset (n : Note) : ℚ := n.offset + n.duration

/-- `Note.tie_with`: raises `ValueError` when the pitches differ (embedded as
`none`); otherwise returns a note at `min` of the offsets, with duration
`max (self.end_offset - offset) (other.end_offset - offset)` and the *other*
note's articulation. -/
def Note.tie_with (self other : Note) : Option Note :=
  if self.pitch ≠ other.pitch then none
  else
    some ⟨self.pitch, min self.offset other.offset,
          max (self.end_offset - min self.offset other.offset)
              (other.end_offset - min self.offset other.offset),
          other.articulation⟩

/-- `MachineNote` from `note.py`: frequency in Hertz, offset and duration in
milliseconds, all integers. -/
structure MachineNote where
  frequency : ℤ
  offset_millis : ℤ
  duration_millis : ℤ
deriving DecidableEq

/-- `Tempo` from `tempo.py`: a subdivision (fraction of a whole note) and a
rate in beats per minute. -/
structure Tempo where
  subdivision : ℚ
  beats_per_minute : ℤ
deriving DecidableEq

/-- `Tempo.quarter_equals`: tempo relative to the quarter note. -/
def Tempo.quarter_equals (beats_per_minute : ℤ) : Tempo :=
  ⟨1/4, beats_per_minute⟩

/-- `Tempo.convert_to_subdivision`: new tempo in the given subdivision with
the beats per minute rounded to the nearest integer. -/
def Tempo.convert_to_subdivision (t : Tempo) (subdivision : ℚ) : Tempo :=
  ⟨subdivision, pyRound (t.beats_per_minute * subdivision / t.subdivision)⟩

/-- `Tempo.__wholes_to_milliseconds`: `round(duration / (bpm * subdivision) * 60000)`. -/
def Tempo.wholes_to_milliseconds (t : Tempo) (duration : ℚ) : ℤ :=
  pyRound (duration / (t.beats_per_minute * t.subdivision) * 60000)

/-- `Tempo.note_to_machine_note`: projects a `Note` to a `MachineNote`. -/
def Tempo.note_to_machine_note (t : Tempo) (note : Note) : MachineNote :=
  ⟨pyRound note.pitch.freq440,
   t.wholes_to_milliseconds note.offset,
   100 + t.wholes_to_milliseconds (note.articulation * note.duration)
       - pyRound (note.articulation * 100)⟩

/-- `Melody` from `melody.py`: a sorted list of notes and a tempo. -/
structure Melody where
  notes : List Note
  tempo : Tempo
deriving DecidableEq

/-- `Melody.__init__`: sorts the given notes by offset (Python's stable
`sorted` with key `n.offset`) and stores the tempo. No emptiness check is
performed and construction never raises. -/
def melodyInit (notes : List Note) (tempo : Tempo := Tempo.quarter_equals 120) : Melody :=
  ⟨notes.mergeSort (fun a b => a.offset ≤ b.offset), tempo⟩

/-- `Melody.number_of_notes`. -/
def Melody.number_of_notes (m : Melody) : ℕ := m.notes.length

/-- `Melody.duration`: `self.__notes[-1].offset + self.__notes[-1].duration`.
Python raises `IndexError` on an empty note list (embedded as `none`). -/
def Melody.duration (m : Melody) : Option ℚ :=
  m.notes.getLast?.map (fun n => n.offset + n.duration)

/-- `Melody.get_machine_notes`. -/
def Melody.get_machine_notes (m : Melody) : List MachineNote :=
  m.notes.map m.tempo.note_to_machine_note

/-! Embedding of `Melody.from_stream`'s articulation pipeline. The music21
stream is external; what the code reads from it is, per note: its pitch, its
offset and quarter-length, and the list of articulation markings attached to
it; plus the stream's slur spans, each a list of spanned notes (represented
here by their positions in the note list). -/

/-- The music21 articulation marking kinds the code distinguishes: the five
exact types in `MUSIC21_ARTICULATION_MAPPING` plus `other` standing for any
marking type outside the mapping (e.g. an accent). -/
inductive MarkKind where
  | staccatissimo
  | staccato
  | spiccato
  | detachedLegato
  | tenuto
  | other
deriving DecidableEq

/-- `MUSIC21_ARTICULATION_MAPPING`: ratio each mapped marking type resolves
to; `none` for types outside the mapping. -/
def markRatio : MarkKind → Option ℚ
  | .staccatissimo => some STACCATISSIMO
  | .staccato => some STACCATO
  | .spiccato => some STACCATISSIMO
  | .detachedLegato => some NON_LEGATO
  | .tenuto => some TENUTO
  | .other => none

/-- What `from_stream` reads off one music21 note. -/
structure StreamNote where
  pitch : Pitch
  offset : ℚ
  quarterLength : ℚ
  marks : List MarkKind
deriving DecidableEq

/-- The dictionary-building step of `from_stream`: a `Note` with offset and
duration divided by 4 (quarter-lengths to whole-lengths) and the default
articulation. -/
def initialNote (sn : StreamNote) : Note :=
  ⟨sn.pitch, sn.offset / 4, sn.quarterLength / 4, NON_LEGATO⟩

/-- Replace the articulation of the note at position `i` (out-of-range is
impossible in the source, where notes are keyed by identity). -/
def setArt : List Note → ℕ → ℚ → List Note
  | [], _, _ => []
  | n :: ns, 0, a => { n with articulation := a } :: ns
  | n :: ns, i + 1, a => n :: setArt ns i a

/-- The slur loop body: every spanned note except the last
(`slur.getSpannedElementsByClass(...)[:-1]`) is set to legato. -/
def applySlur (ns : List Note) (slur : List ℕ) : List Note :=
  slur.dropLast.foldl (fun acc i => setArt acc i LEGATO) ns

/-- The slur loop of `from_stream`. -/
def applySlurs (ns : List Note) (slurs : List (List ℕ)) : List Note :=
  slurs.foldl applySlur ns

/-- Abbreviation for the single write a slur performs on a spanned note. -/
def setLeg (n : Note) : Note := { n with articulation := LEGATO }

/-- The explicit-marking step of `from_stream` for one note: skipped when the
marking list is empty; combined staccato and tenuto resolves to
mezzo-staccato; otherwise the first marking present in the mapping (if any)
gives the articulation. -/
def markStep (sn : StreamNote) (n : Note) : Note :=
  if sn.marks.isEmpty then n
  else if (sn.marks.any fun m => m == .staccato) && (sn.marks.any fun m => m == .tenuto) then
    { n with articulation := MEZZO_STACCATO }
  else
    match sn.marks.find? (fun m => (markRatio m).isSome) with
    | some m => { n with articulation := (markRatio m).getD n.articulation }
    | none => n

/-- The explicit-marking loop of `from_stream`, walking the note dictionary
in insertion order. -/
def applyMarks (sns : List StreamNote) (ns : List Note) : List Note :=
  List.zipWith markStep sns ns

/-- The note-processing portion of `Melody.from_stream`: default notes, then
the slur pass, then the explicit-marking pass. -/
def fromStreamNotes (sns : List StreamNote) (slurs : List (List ℕ)) : List Note :=
  applyMarks sns (applySlurs (sns.map initialNote) slurs)

/-- `Melody.from_stream`: processed notes assembled into a `Melody` with the
resolved tempo (tempo resolution itself is external input here). -/
def from_stream (sns : List StreamNote) (slurs : List (List ℕ)) (tempo : Tempo) : Melody :=
  melodyInit (fromStreamNotes sns slurs) tempo

end MelodyCreator

namespace MelodyCreator

/-- Rounding to the nearest integer moves a rational by at most one half. -/
theorem abs_pyRound_sub_le (q : ℚ) : |(pyRound q : ℚ) - q| ≤ 1/2 := by
  have h0 : (⌊q⌋ : ℚ) ≤ q := Int.floor_le q
  have h1 : q < ⌊q⌋ + 1 := Int.lt_floor_add_one q
  unfold pyRound
  split_ifs with ha hb hc <;> rw [abs_le] <;> push_cast <;> constructor <;> linarith

/-- An integer strictly within one half of a rational is its rounding. -/
theorem pyRound_eq (q : ℚ) (z : ℤ) (hl : q - 1/2 < z) (hr : (z:ℚ) < q + 1/2) :
    pyRound q = z := by
  have h2 := abs_pyRound_sub_le q
  rw [abs_le] at h2
  have hcast : |((pyRound q - z : ℤ) : ℚ)| < 1 := by
    rw [abs_lt]
    push_cast
    constructor <;> linarith
  have habs : |pyRound q - z| < 1 := by exact_mod_cast hcast
  rw [abs_lt] at habs
  omega

/-- The single-note scenario of the spec, evaluated on the code: 440 Hz,
offset 0, duration 1/4 whole-length, default articulation 5/7 at
quarter = 120 projects to 386 ms, not 208 ms. -/
theorem machine_note_scenario :
    (Tempo.quarter_equals 120).note_to_machine_note (noteInit ⟨440⟩ 0 (1/4))
      = ⟨440, 0, 386⟩ := by
  unfold Tempo.note_to_machine_note Tempo.wholes_to_milliseconds Tempo.quarter_equals
    noteInit NON_LEGATO
  simp only [MachineNote.mk.injEq]
  refine ⟨pyRound_eq _ 440 (by norm_num) (by norm_num),
          pyRound_eq _ 0 (by norm_num) (by norm_num), ?_⟩
  rw [pyRound_eq (5/7 * (1/4) / ((120:ℤ) * (1/4)) * 60000) 357 (by norm_num) (by norm_num),
      pyRound_eq (5/7 * 100) 71 (by norm_num) (by norm_num)]
  norm_num

/-- With the same pitch, `tie_with` returns the note spanning from the
smaller offset to the larger end offset, with the second note's
articulation. -/
theorem tie_with_eq_of_pitch_eq (a b : Note) (h : a.pitch = b.pitch) :
    a.tie_with b = some ⟨a.pitch, min a.offset b.offset,
      max a.end_offset b.end_offset - min a.offset b.offset, b.articulation⟩ := by
  unfold Note.tie_with
  rw [if_neg (not_not_intro h)]
  rw [max_sub_sub_right a.end_offset b.end_offset (min a.offset b.offset)]

/-- Claim C1: for every Tempo with positive subdivision and positive
beats per minute and every Note, the machine-note projection returns
`frequency = round(freq440)`,
`offset_millis = round(offset / (bpm * subdivision) * 60000)` and
`duration_millis = 100 + round(articulation * duration / (bpm * subdivision)
* 60000) - round(articulation * 100)`, all arithmetic exact rational until
each final rounding; a fully-legato note gets the plain millisecond
conversion of its written duration. -/
theorem claim_C1 (t : Tempo) (n : Note) (_hs : 0 < t.subdivision)
    (_hb : 0 < t.beats_per_minute) :
    (t.note_to_machine_note n).frequency = pyRound n.pitch.freq440 ∧
    (t.note_to_machine_note n).offset_millis
      = pyRound (n.offset / (t.beats_per_minute * t.subdivision) * 60000) ∧
    (t.note_to_machine_note n).duration_millis
      = 100 + pyRound (n.articulation * n.duration / (t.beats_per_minute * t.subdivision) * 60000)
          - pyRound (n.articulation * 100) ∧
    (n.articulation = 1 →
      (t.note_to_machine_note n).duration_millis
        = pyRound (n.duration / (t.beats_per_minute * t.subdivision) * 60000)) := by
  refine ⟨rfl, rfl, rfl, fun hleg => ?_⟩
  have h100 : pyRound (100:ℚ) = 100 := by unfold pyRound; norm_num
  simp only [Tempo.note_to_machine_note, Tempo.wholes_to_milliseconds, hleg, one_mul]
  rw [h100]
  ring

theorem claim_C1_witness :
    ((Tempo.quarter_equals 120).note_to_machine_note (noteInit ⟨440⟩ 0 (1/4))).frequency
      = pyRound ((noteInit ⟨440⟩ 0 (1/4)).pitch.freq440) :=
  (claim_C1 (Tempo.quarter_equals 120) (noteInit ⟨440⟩ 0 (1/4))
    (by norm_num [Tempo.quarter_equals]) (by norm_num [Tempo.quarter_equals])).1

/-- Claim C2 counterexample: the single-note scenario (440 Hz, offset 0,
duration 1/4, articulation 5/7, quarter = 120) does not project to
duration_millis 208: the sounding duration is 5/28 whole-lengths at 30
whole-lengths per minute, i.e. 2500/7 ≈ 357.14 ms, so duration_millis is
100 + 357 - 71 = 386 (the spec's intermediate value 178.57 is off by a
factor of two). -/
theorem claim_C2_counterexample :
    (Tempo.quarter_equals 120).note_to_machine_note (noteInit ⟨440⟩ 0 (1/4))
      ≠ ⟨440, 0, 208⟩ := by
  rw [machine_note_scenario]
  simp only [ne_eq, MachineNote.mk.injEq]
  norm_num

/-- Claim C2 amended: the single-note melody (440 Hz, offset 0, duration 1/4
whole, default articulation 5/7) at quarter = 120 projects to frequency 440,
offset_millis 0 and duration_millis 386 = 100 + round(2500/7) - round(500/7)
= 100 + 357 - 71. -/
theorem claim_C2 :
    (melodyInit [noteInit ⟨440⟩ 0 (1/4)] (Tempo.quarter_equals 120)).get_machine_notes
      = [⟨440, 0, 386⟩] := by
  unfold melodyInit Melody.get_machine_notes
  rw [List.mergeSort_singleton]
  simp only [List.map_cons, List.map_nil, machine_note_scenario]

/-- Claim C3 counterexample: constructing a Melody from the empty note
sequence succeeds and produces a Melody with zero notes (the initializer
sorts the empty list and raises nothing). -/
theorem claim_C3_counterexample :
    (melodyInit [] (Tempo.quarter_equals 120)).number_of_notes = 0 := by
  simp [melodyInit, Melody.number_of_notes, List.mergeSort_nil]

/-- Claim C3 amended: Melody construction from the empty note sequence
succeeds for every tempo, yielding a Melody with zero notes; the failure
surfaces only later, when the `duration` accessor indexes the last note and
fails (IndexError, embedded as `none`). -/
theorem claim_C3 (t : Tempo) :
    (melodyInit [] t).number_of_notes = 0 ∧ (melodyInit [] t).duration = none := by
  constructor <;>
    simp [melodyInit, Melody.number_of_notes, Melody.duration, List.mergeSort_nil]

/-- Claim C4 counterexample: Note construction performs no validation — a
Note with duration 0 (violating duration > 0) and a Note with articulation 2
(outside (0, 1]) are both produced without error. -/
theorem claim_C4_counterexample :
    (noteInit ⟨440⟩ 0 0).duration = 0 ∧ ¬ (0:ℚ) < (noteInit ⟨440⟩ 0 0).duration ∧
    (noteInit ⟨440⟩ 0 (1/4) 2).articulation = 2 ∧
    ¬ (noteInit ⟨440⟩ 0 (1/4) 2).articulation ≤ 1 := by
  refine ⟨rfl, by norm_num [noteInit], rfl, by norm_num [noteInit]⟩

/-- Claim C4 amended: Note construction never fails and enforces no
invariant: even when duration ≤ 0 or articulation lies outside (0, 1], the
initializer accepts the values and stores them verbatim. -/
theorem claim_C4 (p : Pitch) (o d a : ℚ) (_h : d ≤ 0 ∨ a ≤ 0 ∨ 1 < a) :
    (noteInit p o d a).pitch = p ∧ (noteInit p o d a).offset = o ∧
    (noteInit p o d a).duration = d ∧ (noteInit p o d a).articulation = a :=
  ⟨rfl, rfl, rfl, rfl⟩

theorem claim_C4_witness :
    (noteInit ⟨440⟩ 0 (-1) 2).duration = -1 :=
  (claim_C4 ⟨440⟩ 0 (-1) 2 (Or.inl (by norm_num))).2.2.1

/-- Claim C5: for equal pitches, `tie_with` returns the note with
`offset = min`, `duration = max end_offset - min offset` and the second
operand's articulation; for differing pitches it fails (returns no note). -/
theorem claim_C5 (a b : Note) :
    (a.pitch = b.pitch →
      a.tie_with b = some ⟨a.pitch, min a.offset b.offset,
        max a.end_offset b.end_offset - min a.offset b.offset, b.articulation⟩) ∧
    (a.pitch ≠ b.pitch → a.tie_with b = none) := by
  refine ⟨tie_with_eq_of_pitch_eq a b, fun h => ?_⟩
  unfold Note.tie_with
  rw [if_pos h]

theorem claim_C5_witness :
    (noteInit ⟨440⟩ 0 1).tie_with (noteInit ⟨440⟩ 2 1 (1/7)) = some ⟨⟨440⟩, 0, 3, 1/7⟩ := by
  have h := (claim_C5 (noteInit ⟨440⟩ 0 1) (noteInit ⟨440⟩ 2 1 (1/7))).1 rfl
  rw [h]
  norm_num [noteInit, Note.end_offset]

/-- Claim C6: for equal pitches, `a.tie_with b` and `b.tie_with a` agree on
offset and duration (the merged interval runs from the smaller offset to the
larger end offset, spanning any gap between disjoint intervals), while the
articulation of `a.tie_with b` is b's and that of `b.tie_with a` is a's, so
the operation is not commutative in articulation when the articulations
differ. -/
theorem claim_C6 (a b : Note) (h : a.pitch = b.pitch) :
    (a.tie_with b).map Note.offset = (b.tie_with a).map Note.offset ∧
    (a.tie_with b).map Note.duration = (b.tie_with a).map Note.duration ∧
    (a.tie_with b).map Note.offset = some (min a.offset b.offset) ∧
    (a.tie_with b).map Note.end_offset = some (max a.end_offset b.end_offset) ∧
    (a.tie_with b).map Note.articulation = some b.articulation ∧
    (b.tie_with a).map Note.articulation = some a.articulation ∧
    (a.articulation ≠ b.articulation →
      (a.tie_with b).map Note.articulation ≠ (b.tie_with a).map Note.articulation) := by
  rw [tie_with_eq_of_pitch_eq a b h, tie_with_eq_of_pitch_eq b a h.symm]
  refine ⟨?_, ?_, rfl, ?_, rfl, rfl, ?_⟩
  · simp [min_comm a.offset b.offset]
  · simp [min_comm a.offset b.offset, max_comm a.end_offset b.end_offset]
  · simp only [Option.map_some', Option.some.injEq, Note.end_offset]
    ring
  · intro hne heq
    simp only [Option.map_some', Option.some.injEq] at heq
    exact hne heq.symm

theorem claim_C6_witness :
    ((noteInit ⟨440⟩ 0 1).tie_with (noteInit ⟨440⟩ 2 1 (1/7))).map Note.articulation
      ≠ ((noteInit ⟨440⟩ 2 1 (1/7)).tie_with (noteInit ⟨440⟩ 0 1)).map Note.articulation :=
  (claim_C6 (noteInit ⟨440⟩ 0 1) (noteInit ⟨440⟩ 2 1 (1/7)) rfl).2.2.2.2.2.2
    (by norm_num [noteInit, NON_LEGATO])

/-! Positional lemmas about the slur and marking passes. -/

theorem setArt_getElem?_ne (ns : List Note) (j : ℕ) (a : ℚ) {i : ℕ} (h : i ≠ j) :
    (setArt ns j a)[i]? = ns[i]? := by
  induction ns generalizing i j with
  | nil => rfl
  | cons n t ih =>
    cases j with
    | zero =>
      cases i with
      | zero => exact absurd rfl h
      | succ k => simp [setArt]
    | succ jj =>
      cases i with
      | zero => simp [setArt]
      | succ k =>
        simp only [setArt, List.getElem?_cons_succ]
        exact ih jj (fun he => h (by rw [he]))

theorem setArt_getElem?_self (ns : List Note) (j : ℕ) (a : ℚ) :
    (setArt ns j a)[j]? = (ns[j]?).map (fun n => { n with articulation := a }) := by
  induction ns generalizing j with
  | nil => simp [setArt]
  | cons n t ih =>
    cases j with
    | zero => simp [setArt]
    | succ jj => simp [setArt, ih]

theorem setArt_length (ns : List Note) (j : ℕ) (a : ℚ) :
    (setArt ns j a).length = ns.length := by
  induction ns generalizing j with
  | nil => rfl
  | cons n t ih => cases j <;> simp [setArt, ih]

theorem foldl_setArt_getElem?_not_mem (l : List ℕ) (ns : List Note) {i : ℕ} (h : i ∉ l) :
    (l.foldl (fun acc j => setArt acc j LEGATO) ns)[i]? = ns[i]? := by
  induction l generalizing ns with
  | nil => rfl
  | cons j t ih =>
    rw [List.foldl_cons]
    have hij : i ≠ j := fun he => h (he ▸ List.mem_cons_self j t)
    rw [ih _ (fun hm => h (List.mem_cons_of_mem j hm)), setArt_getElem?_ne ns j LEGATO hij]

theorem foldl_setArt_getElem?_mem (l : List ℕ) (ns : List Note) {i : ℕ} (h : i ∈ l) :
    (l.foldl (fun acc j => setArt acc j LEGATO) ns)[i]? = (ns[i]?).map setLeg := by
  induction l generalizing ns with
  | nil => cases h
  | cons j t ih =>
    rw [List.foldl_cons]
    by_cases hit : i ∈ t
    · rw [ih _ hit]
      by_cases hij : i = j
      · subst hij
        rw [setArt_getElem?_self]
        cases ns[i]? <;> rfl
      · rw [setArt_getElem?_ne ns j LEGATO hij]
    · have hij : i = j := by
        rcases List.mem_cons.mp h with h1 | h2
        · exact h1
        · exact absurd h2 hit
      subst hij
      rw [foldl_setArt_getElem?_not_mem t _ hit, setArt_getElem?_self]
      rfl

theorem foldl_setArt_length (l : List ℕ) (ns : List Note) :
    (l.foldl (fun acc j => setArt acc j LEGATO) ns).length = ns.length := by
  induction l generalizing ns with
  | nil => rfl
  | cons j t ih => rw [List.foldl_cons, ih, setArt_length]

theorem applySlurs_cons (ns : List Note) (s : List ℕ) (t : List (List ℕ)) :
    applySlurs ns (s :: t) = applySlurs (applySlur ns s) t := rfl

theorem applySlurs_getElem?_not_mem (slurs : List (List ℕ)) (ns : List Note) {i : ℕ}
    (h : ∀ s ∈ slurs, i ∉ s.dropLast) :
    (applySlurs ns slurs)[i]? = ns[i]? := by
  induction slurs generalizing ns with
  | nil => rfl
  | cons s t ih =>
    rw [applySlurs_cons, ih _ (fun s' hs' => h s' (List.mem_cons_of_mem s hs'))]
    exact foldl_setArt_getElem?_not_mem _ _ (h s (List.mem_cons_self s t))

theorem applySlurs_getElem?_mem (slurs : List (List ℕ)) (ns : List Note) {i : ℕ}
    (h : ∃ s ∈ slurs, i ∈ s.dropLast) :
    (applySlurs ns slurs)[i]? = (ns[i]?).map setLeg := by
  induction slurs generalizing ns with
  | nil => rcases h with ⟨s, hs, _⟩; cases hs
  | cons s t ih =>
    rw [applySlurs_cons]
    by_cases htail : ∃ s' ∈ t, i ∈ s'.dropLast
    · rw [ih _ htail]
      by_cases hhead : i ∈ s.dropLast
      · have hh : (applySlur ns s)[i]? = (ns[i]?).map setLeg :=
          foldl_setArt_getElem?_mem _ _ hhead
        rw [hh]
        cases ns[i]? <;> rfl
      · have hh : (applySlur ns s)[i]? = ns[i]? :=
          foldl_setArt_getElem?_not_mem _ _ hhead
        rw [hh]
    · push_neg at htail
      rcases h with ⟨s', hs', hi⟩
      rcases List.mem_cons.mp hs' with rfl | hst
      · rw [applySlurs_getElem?_not_mem t _ htail]
        exact foldl_setArt_getElem?_mem _ _ hi
      · exact absurd hi (htail s' hst)

theorem applySlurs_length (slurs : List (List ℕ)) (ns : List Note) :
    (applySlurs ns slurs).length = ns.length := by
  induction slurs generalizing ns with
  | nil => rfl
  | cons s t ih => rw [applySlurs_cons, ih]; exact foldl_setArt_length _ _

theorem applyMarks_getElem? (sns : List StreamNote) (ns : List Note) (i : ℕ) :
    (applyMarks sns ns)[i]? = (sns[i]?).bind (fun sn => (ns[i]?).map (markStep sn)) := by
  induction sns generalizing ns i with
  | nil => simp [applyMarks]
  | cons a t ih =>
    cases ns with
    | nil => cases i <;> simp [applyMarks]
    | cons b u =>
      cases i with
      | zero => simp [applyMarks]
      | succ k => simpa [applyMarks] using ih u k

theorem markStep_of_marks_nil (sn : StreamNote) (n : Note) (h : sn.marks = []) :
    markStep sn n = n := by
  simp [markStep, h]

theorem markStep_articulation_of_staccato_tenuto (sn : StreamNote) (n : Note)
    (hs : MarkKind.staccato ∈ sn.marks) (ht : MarkKind.tenuto ∈ sn.marks) :
    (markStep sn n).articulation = MEZZO_STACCATO := by
  have hne : sn.marks.isEmpty = false := by
    cases hm : sn.marks with
    | nil => rw [hm] at hs; cases hs
    | cons _ _ => rfl
  have h1 : (sn.marks.any fun m => m == MarkKind.staccato) = true :=
    List.any_eq_true.mpr ⟨MarkKind.staccato, hs, by simp⟩
  have h2 : (sn.marks.any fun m => m == MarkKind.tenuto) = true :=
    List.any_eq_true.mpr ⟨MarkKind.tenuto, ht, by simp⟩
  simp [markStep, hne, h1, h2]

/-- Claim C7: after the `from_stream` articulation passes, every note that
lies in some slur span other than as its last element and carries no
explicit marking ends with articulation legato (1); a note in no slur span
(or only as a final element) resolves purely from its own markings; and in
the concrete 3-note slur where notes 1 and 2 are unmarked and note 3 is
marked staccato, the articulations come out as 1, 1 and 2/7. -/
theorem claim_C7 :
    (∀ (sns : List StreamNote) (slurs : List (List ℕ)) (i : ℕ) (sn : StreamNote),
      sns[i]? = some sn → (∃ s ∈ slurs, i ∈ s.dropLast) → sn.marks = [] →
      ((fromStreamNotes sns slurs)[i]?).map Note.articulation = some 1) ∧
    (∀ (sns : List StreamNote) (slurs : List (List ℕ)) (i : ℕ),
      (∀ s ∈ slurs, i ∉ s.dropLast) →
      (fromStreamNotes sns slurs)[i]?
        = (sns[i]?).map (fun sn => markStep sn (initialNote sn))) ∧
    ((fromStreamNotes
        [⟨⟨300⟩, 0, 1, []⟩, ⟨⟨330⟩, 1, 1, []⟩, ⟨⟨360⟩, 2, 1, [.staccato]⟩]
        [[0, 1, 2]]).map Note.articulation = [1, 1, 2/7]) := by
  refine ⟨?_, ?_, ?_⟩
  · intro sns slurs i sn hsn hslur hmarks
    unfold fromStreamNotes
    rw [applyMarks_getElem?, hsn, applySlurs_getElem?_mem slurs _ hslur,
        List.getElem?_map, hsn]
    simp [markStep_of_marks_nil _ _ hmarks, setLeg, LEGATO]
  · intro sns slurs i hslur
    unfold fromStreamNotes
    rw [applyMarks_getElem?, applySlurs_getElem?_not_mem slurs _ hslur, List.getElem?_map]
    cases sns[i]? <;> rfl
  · rfl

theorem claim_C7_witness :
    ((fromStreamNotes
        [⟨⟨300⟩, 0, 1, []⟩, ⟨⟨330⟩, 1, 1, []⟩, ⟨⟨360⟩, 2, 1, [.staccato]⟩]
        [[0, 1, 2]])[0]?).map Note.articulation = some 1 :=
  claim_C7.1 _ _ 0 ⟨⟨300⟩, 0, 1, []⟩ rfl ⟨[0, 1, 2], by simp, by simp⟩ rfl

/-- Claim C8: a note whose marking list contains both the staccato marking
and the tenuto marking resolves to mezzo-staccato (3/7) through the full
articulation pipeline, never to 2/7 or 6/7, regardless of the order of the
markings in the list. ("staccato-kind"/"tenuto-kind" are the exact
`music21` types the code tests for.) -/
theorem claim_C8 (sns : List StreamNote) (slurs : List (List ℕ)) (i : ℕ) (sn : StreamNote)
    (hsn : sns[i]? = some sn) (hs : MarkKind.staccato ∈ sn.marks)
    (ht : MarkKind.tenuto ∈ sn.marks) :
    ((fromStreamNotes sns slurs)[i]?).map Note.articulation = some MEZZO_STACCATO ∧
    MEZZO_STACCATO = 3/7 ∧ MEZZO_STACCATO ≠ STACCATO ∧ MEZZO_STACCATO ≠ TENUTO := by
  refine ⟨?_, rfl, by norm_num [MEZZO_STACCATO, STACCATO],
          by norm_num [MEZZO_STACCATO, TENUTO]⟩
  have hi : i < sns.length := by
    by_contra hge
    push_neg at hge
    rw [List.getElem?_eq_none hge] at hsn
    cases hsn
  have hlen : i < (applySlurs (sns.map initialNote) slurs).length := by
    rw [applySlurs_length, List.length_map]
    exact hi
  unfold fromStreamNotes
  rw [applyMarks_getElem?, hsn, List.getElem?_eq_getElem hlen]
  simp [markStep_articulation_of_staccato_tenuto sn _ hs ht]

theorem claim_C8_witness :
    ((fromStreamNotes [⟨⟨440⟩, 0, 1, [.tenuto, .staccato]⟩] [])[0]?).map Note.articulation
      = some MEZZO_STACCATO :=
  (claim_C8 _ _ 0 ⟨⟨440⟩, 0, 1, [.tenuto, .staccato]⟩ rfl (by simp) (by simp)).1

/-- Claim C9 counterexample: the round-trip tolerance of ±1 fails when the
intermediate subdivision is much finer than the original. Tempo subdivision
1, 4 BPM, converted to subdivision 1/10: round(4 × (1/10) / 1) = round(2/5)
= 0, and converting back gives round(0 × 1 / (1/10)) = 0, which differs from
the original 4 BPM by 4 > 1. All of the claim's hypotheses hold at this
input (subdivision 1 > 0, 4 BPM > 0, target subdivision 1/10 > 0). -/
theorem claim_C9_counterexample :
    (0:ℚ) < (Tempo.mk 1 4).subdivision ∧ (0:ℤ) < (Tempo.mk 1 4).beats_per_minute ∧
    (0:ℚ) < 1/10 ∧
    ¬ |(((Tempo.mk 1 4).convert_to_subdivision (1/10)).convert_to_subdivision
          (Tempo.mk 1 4).subdivision).beats_per_minute
        - (Tempo.mk 1 4).beats_per_minute| ≤ 1 := by
  refine ⟨by norm_num, by norm_num, by norm_num, ?_⟩
  unfold Tempo.convert_to_subdivision
  rw [show pyRound (((4:ℤ):ℚ) * (1/10) / (Tempo.mk 1 4).subdivision) = 0 from
        pyRound_eq _ 0 (by norm_num) (by norm_num)]
  rw [show pyRound (((0:ℤ):ℚ) * (Tempo.mk 1 4).subdivision / (1/10)) = 0 from
        pyRound_eq _ 0 (by norm_num) (by norm_num)]
  norm_num

/-- Claim C9 amended: the round-trip
`convert_to_subdivision(s).convert_to_subdivision(original)` reproduces the
original beats per minute within ±1 provided the target subdivision is not
less than half the original one (`1/2 ≤ s / subdivision`); without that
restriction the two roundings can lose the whole rate, as the
counterexample shows. -/
theorem claim_C9 (t : Tempo) (s : ℚ) (hd : 0 < t.subdivision)
    (_hb : 0 < t.beats_per_minute) (hs : 0 < s) (hr : 1/2 ≤ s / t.subdivision) :
    |((t.convert_to_subdivision s).convert_to_subdivision t.subdivision).beats_per_minute
      - t.beats_per_minute| ≤ 1 := by
  obtain ⟨d, b⟩ := t
  simp only [Tempo.convert_to_subdivision] at *
  set q1 : ℚ := (b:ℚ) * s / d with hq1
  set b2 : ℤ := pyRound q1 with hb2
  set q2 : ℚ := (b2:ℚ) * d / s with hq2
  set b3 : ℤ := pyRound q2 with hb3
  have hd0 : d ≠ 0 := ne_of_gt hd
  have hs0 : s ≠ 0 := ne_of_gt hs
  have e1 : |(b2:ℚ) - q1| ≤ 1/2 := abs_pyRound_sub_le q1
  have e2 : |(b3:ℚ) - q2| ≤ 1/2 := abs_pyRound_sub_le q2
  have key : q2 - (b:ℚ) = ((b2:ℚ) - q1) * (d / s) := by
    field_simp [hq1, hq2]
    ring
  have hds : 0 < d / s := div_pos hd hs
  have hds2 : d / s ≤ 2 := by
    rw [div_le_iff₀ hs]
    rw [le_div_iff₀ hd] at hr
    linarith
  have h2 : |q2 - (b:ℚ)| ≤ 1 := by
    rw [key, abs_mul, abs_of_pos hds]
    calc |(b2:ℚ) - q1| * (d/s) ≤ (1/2) * 2 :=
          mul_le_mul e1 hds2 (le_of_lt hds) (by norm_num)
      _ = 1 := by norm_num
  have h3 : |(b3:ℚ) - (b:ℚ)| ≤ 3/2 := by
    calc |(b3:ℚ) - b| = |((b3:ℚ) - q2) + (q2 - b)| := by ring_nf
      _ ≤ |(b3:ℚ) - q2| + |q2 - (b:ℚ)| := abs_add _ _
      _ ≤ 1/2 + 1 := add_le_add e2 h2
      _ = 3/2 := by norm_num
  by_contra hcon
  push_neg at hcon
  have h4 : (2:ℤ) ≤ |b3 - b| := hcon
  have h5 : (2:ℚ) ≤ |((b3 - b : ℤ) : ℚ)| := by exact_mod_cast h4
  push_cast at h5
  linarith

theorem claim_C9_witness :
    |(((Tempo.mk (1/4) 120).convert_to_subdivision (1/8)).convert_to_subdivision
        (Tempo.mk (1/4) 120).subdivision).beats_per_minute
      - (Tempo.mk (1/4) 120).beats_per_minute| ≤ 1 :=
  claim_C9 (Tempo.mk (1/4) 120) (1/8) (by norm_num) (by norm_num) (by norm_num)
    (by norm_num)

/-- Claim C10: for a valid tempo (positive subdivision and rate) and a note
with positive duration and articulation in (0, 1], the projected
duration_millis is non-negative: the rounded sounding duration is ≥ 0 and
round(articulation × 100) ≤ 100, so the `100 − round(articulation × 100)`
correction never drives the duration below zero. Equality 0 is attainable
(articulation 1 with a sounding duration that rounds to 0 ms), as the
second conjunct shows at duration 1/1000000 of a whole note. -/
theorem claim_C10 :
    (∀ (t : Tempo) (n : Note), 0 < t.subdivision → 0 < t.beats_per_minute →
      0 < n.duration → 0 < n.articulation → n.articulation ≤ 1 →
      0 ≤ (t.note_to_machine_note n).duration_millis) ∧
    ((Tempo.quarter_equals 120).note_to_machine_note
        (noteInit ⟨440⟩ 0 (1/1000000) 1)).duration_millis = 0 := by
  constructor
  · intro t n hsub hbpm hdur hart hart1
    unfold Tempo.note_to_machine_note Tempo.wholes_to_milliseconds
    have hq : 0 < n.articulation * n.duration / (t.beats_per_minute * t.subdivision) * 60000 := by
      have hb' : (0:ℚ) < (t.beats_per_minute : ℚ) := by exact_mod_cast hbpm
      positivity
    have hw := abs_pyRound_sub_le
      (n.articulation * n.duration / (t.beats_per_minute * t.subdivision) * 60000)
    rw [abs_le] at hw
    have ha := abs_pyRound_sub_le (n.articulation * 100)
    rw [abs_le] at ha
    have ha100 : n.articulation * 100 ≤ 100 := by nlinarith
    set w : ℤ := pyRound
      (n.articulation * n.duration / (t.beats_per_minute * t.subdivision) * 60000) with hwdef
    set a : ℤ := pyRound (n.articulation * 100) with hadef
    have hw0 : (0:ℤ) ≤ w := by
      have : (-1:ℚ) < (w:ℚ) := by linarith [hw.1, hw.2]
      have : (-1:ℤ) < w := by exact_mod_cast this
      omega
    have ha100' : a ≤ 100 := by
      have : (a:ℚ) < 101 := by linarith [ha.1, ha.2]
      have : a < (101:ℤ) := by exact_mod_cast this
      omega
    change (0:ℤ) ≤ 100 + w - a
    omega
  · unfold Tempo.note_to_machine_note Tempo.wholes_to_milliseconds Tempo.quarter_equals
      noteInit
    rw [pyRound_eq ((1:ℚ) * (1/1000000) / ((120:ℤ) * (1/4)) * 60000) 0 (by norm_num)
          (by norm_num),
        pyRound_eq ((1:ℚ) * 100) 100 (by norm_num) (by norm_num)]
    norm_num

theorem claim_C10_witness :
    0 ≤ ((Tempo.quarter_equals 120).note_to_machine_note
          (noteInit ⟨440⟩ 0 (1/4))).duration_millis :=
  claim_C10.1 (Tempo.quarter_equals 120) (noteInit ⟨440⟩ 0 (1/4))
    (by norm_num [Tempo.quarter_equals]) (by norm_num [Tempo.quarter_equals])
    (by norm_num [noteInit]) (by norm_num [noteInit, NON_LEGATO])
    (by norm_num [noteInit, NON_LEGATO])

end MelodyCreator
